import Mathlib

/-!
Verification of the tagged JSON codec in `flask/json/tag.py` (flask 1.0).

The Python value domain that flows through the serializer is embedded as the
inductive type `Value`: JSON-native scalars (null, booleans, integers,
strings) plus the types the built-in tags cover (dicts, tuples, bytes,
Markup, UUID, datetime).  Dicts are association lists of string keys in
insertion order, as parsed JSON objects and session data are.  UUIDs are
identified with their canonical 32-lowercase-hex-digit representation (the
`uuid` standard library is outside the sources; `tag.py` only calls
`value.hex` and `UUID(value)`).  Datetimes are naive UTC timestamps at
second granularity, matching the HTTP-date wire format the spec fixes for
the `" d"` tag (the `werkzeug.http` helpers are outside the sources and are
modelled from the spec).
-/

namespace FlaskTag

/-- Timestamp at the granularity of the HTTP-date wire format: a naive UTC
calendar time.  Python `datetime` restricts years to 1..9999, which is what
keeps the `%04d` year field of the wire format fixed-width. -/
structure DateTime where
  year : Nat
  month : Nat
  day : Nat
  hour : Nat
  minute : Nat
  second : Nat
deriving DecidableEq, Repr

/-- Field ranges enforced by the Python `datetime` constructor (day is only
bounded above by 31; the per-month bound is irrelevant to the codec). -/
def DateTime.valid (d : DateTime) : Bool :=
  1 ≤ d.year && d.year ≤ 9999 && 1 ≤ d.month && d.month ≤ 12 &&
  1 ≤ d.day && d.day ≤ 31 && d.hour ≤ 23 && d.minute ≤ 59 && d.second ≤ 59

/-- Python values handled by the tagged JSON serializer. -/
inductive Value where
  | null : Value
  | bool (b : Bool) : Value
  | int (n : Int) : Value
  | str (s : String) : Value
  | list (xs : List Value) : Value
  | dict (kvs : List (String × Value)) : Value
  | tuple (xs : List Value) : Value
  | bytes (bs : List Nat) : Value
  | markup (s : String) : Value
  | uuid (hex : String) : Value
  | datetime (d : DateTime) : Value

/-- Keys of the dict-typed registry field `tags` after `__init__` has
registered the eight default tag classes: the six discriminated tags, in
registration order (`PassDict` and `PassList` have no key). -/
def discKeys : List String := [" di", " t", " b", " m", " u", " d"]

/-- Python slice `key[:-2]`: drop the last two characters (empty result when
the string has at most two characters). -/
def dropLast2 (s : String) : String :=
  String.mk (s.data.take (s.data.length - 2))

/-! ## Base64 (standard alphabet, padded), as used by `TagBytes` -/

/-- Standard base64 alphabet. -/
def b64Chars : List Char :=
  [ 'A', 'B', 'C', 'D', 'E', 'F', 'G', 'H', 'I', 'J', 'K', 'L', 'M',
    'N', 'O', 'P', 'Q', 'R', 'S', 'T', 'U', 'V', 'W', 'X', 'Y', 'Z',
    'a', 'b', 'c', 'd', 'e', 'f', 'g', 'h', 'i', 'j', 'k', 'l', 'm',
    'n', 'o', 'p', 'q', 'r', 's', 't', 'u', 'v', 'w', 'x', 'y', 'z',
    '0', '1', '2', '3', '4', '5', '6', '7', '8', '9', '+', '/' ]

/-- Character for a six-bit group. -/
def sextetChar (n : Nat) : Char := b64Chars.getD n 'A'

/-- Index of a character in the base64 alphabet, `none` for padding or
foreign characters. -/
def sextetVal (c : Char) : Option Nat :=
  b64Chars.findIdx? (fun a => a == c)

/-- Encode bytes three at a time into four base64 characters, padding the
final group with `=`. -/
def b64encodeChunks : List Nat → List Char
  | [] => []
  | [b1] =>
      [sextetChar (b1 / 4), sextetChar (b1 % 4 * 16), '=', '=']
  | [b1, b2] =>
      [sextetChar (b1 / 4), sextetChar (b1 % 4 * 16 + b2 / 16),
       sextetChar (b2 % 16 * 4), '=']
  | b1 :: b2 :: b3 :: rest =>
      sextetChar (b1 / 4) :: sextetChar (b1 % 4 * 16 + b2 / 16) ::
      sextetChar (b2 % 16 * 4 + b3 / 64) :: sextetChar (b3 % 64) ::
      b64encodeChunks rest

/-- base64.b64encode followed by the ascii decode in `TagBytes.to_json`. -/
def b64encode (bs : List Nat) : String := String.mk (b64encodeChunks bs)

/-- Decode four base64 characters at a time; padding is accepted only in the
final group, and a string whose length is not a multiple of four (or that
contains foreign characters) is rejected. -/
def b64decodeChunks : List Char → Option (List Nat)
  | [] => some []
  | c1 :: c2 :: c3 :: c4 :: rest =>
      if c3 = '=' && c4 = '=' && rest.isEmpty then
        match sextetVal c1, sextetVal c2 with
        | some v1, some v2 => some [v1 * 4 + v2 / 16]
        | _, _ => none
      else if c4 = '=' && rest.isEmpty then
        match sextetVal c1, sextetVal c2, sextetVal c3 with
        | some v1, some v2, some v3 =>
            some [v1 * 4 + v2 / 16, v2 % 16 * 16 + v3 / 4]
        | _, _, _ => none
      else
        match sextetVal c1, sextetVal c2, sextetVal c3, sextetVal c4,
            b64decodeChunks rest with
        | some v1, some v2, some v3, some v4, some tail =>
            some ((v1 * 4 + v2 / 16) :: (v2 % 16 * 16 + v3 / 4) ::
              (v3 % 4 * 64 + v4) :: tail)
        | _, _, _, _, _ => none
  | _ => none

/-- base64.b64decode as used by `TagBytes.to_python`. -/
def b64decode (s : String) : Option (List Nat) := b64decodeChunks s.data

/-! ## HTTP dates

Modelled from the spec: `werkzeug.http.http_date` and `parse_date` are not
part of the sources; the spec fixes the wire format as the RFC 7231
HTTP-date, e.g. `Mon, 01 Jan 2024 00:00:00 GMT`, parsed back into a naive
UTC timestamp. -/

/-- Character for a single decimal digit. -/
def digitChar (d : Nat) : Char := Char.ofNat (48 + d)

/-- Numeric value of a decimal digit character. -/
def digitVal (c : Char) : Nat := c.toNat - 48

/-- Two-digit zero-padded field (`%02d`). -/
def pad2 (n : Nat) : List Char := [digitChar (n / 10), digitChar (n % 10)]

/-- Four-digit zero-padded field (`%04d`). -/
def pad4 (n : Nat) : List Char :=
  [digitChar (n / 1000), digitChar (n / 100 % 10), digitChar (n / 10 % 10),
   digitChar (n % 10)]

/-- Three-letter month abbreviations, month 1 first. -/
def monthNames : List String :=
  ["Jan", "Feb", "Mar", "Apr", "May", "Jun", "Jul", "Aug", "Sep", "Oct",
   "Nov", "Dec"]

/-- Abbreviation for a month number in 1..12. -/
def monthName (m : Nat) : String := monthNames.getD (m - 1) "Jan"

/-- Month number for an abbreviation, `none` when unknown. -/
def monthNum (s : List Char) : Option Nat :=
  match (monthNames.findIdx? (fun a => a.data == s)) with
  | some i => some (i + 1)
  | none => none

/-- Three-letter weekday abbreviations, Monday first (the `tm_wday`
convention of the formatting helper). -/
def weekdayNames : List String :=
  ["Mon", "Tue", "Wed", "Thu", "Fri", "Sat", "Sun"]

/-- Day of week of a calendar date by the Zeller congruence, as an index
with Monday = 0. -/
def weekdayIdx (y m d : Nat) : Nat :=
  let y2 := if m < 3 then y - 1 else y
  let m2 := if m < 3 then m + 12 else m
  let k := y2 % 100
  let j := y2 / 100
  (d + 13 * (m2 + 1) / 5 + k + k / 4 + j / 4 + 5 * j + 5) % 7

/-- Weekday abbreviation of a date. -/
def weekdayName (y m d : Nat) : String :=
  weekdayNames.getD (weekdayIdx y m d) "Mon"

/-- Characters of the HTTP-date rendering of a timestamp. -/
def httpDateChars (d : DateTime) : List Char :=
  (weekdayName d.year d.month d.day).data ++ [',', ' '] ++ pad2 d.day ++
  [' '] ++ (monthName d.month).data ++ [' '] ++ pad4 d.year ++ [' '] ++
  pad2 d.hour ++ [':'] ++ pad2 d.minute ++ [':'] ++ pad2 d.second ++
  [' ', 'G', 'M', 'T']

/-- HTTP-date rendering, `TagDateTime.to_json` wire text. -/
def httpDate (d : DateTime) : String := String.mk (httpDateChars d)

/-- Parse the fixed-width HTTP-date format back into a timestamp; `none` on
any other shape (the Python helper returns `None` for unparseable input). -/
def parseDateChars : List Char → Option DateTime
  | [_, _, _, ',', ' ', d1, d2, ' ', m1, m2, m3, ' ', y1, y2, y3, y4, ' ',
     h1, h2, ':', n1, n2, ':', s1, s2, ' ', 'G', 'M', 'T'] =>
      if (d1.isDigit && d2.isDigit && y1.isDigit && y2.isDigit && y3.isDigit
          && y4.isDigit && h1.isDigit && h2.isDigit && n1.isDigit
          && n2.isDigit && s1.isDigit && s2.isDigit) then
        match (monthNum [m1, m2, m3]) with
        | some mo =>
            some
              { year := digitVal y1 * 1000 + digitVal y2 * 100 +
                  digitVal y3 * 10 + digitVal y4
                month := mo
                day := digitVal d1 * 10 + digitVal d2
                hour := digitVal h1 * 10 + digitVal h2
                minute := digitVal n1 * 10 + digitVal n2
                second := digitVal s1 * 10 + digitVal s2 }
        | none => none
      else none
  | _ => none

/-- werkzeug.http.parse_date, modelled from the spec on the RFC 7231
format. -/
def parseDate (s : String) : Option DateTime := parseDateChars s.data

/-! ## The default serializer's encoding walk

`TaggedJSONSerializer.tag` scans `order` front-to-back and applies the
first tag whose `check` accepts the value; on the default registry the
eight checks are `isinstance` tests on pairwise-distinct types (plus the
single-entry-with-discriminator-key refinement of `TagDict` over
`PassDict`, which immediately precedes it), so the scan is equivalent to
the dispatch on the value's constructor written out below.  Values matched
by no check — the JSON-native scalars — are returned unchanged. -/

mutual

/-- TaggedJSONSerializer.tag on the default registry. -/
def tagv : Value → Value
  | .null => .null
  | .bool b => .bool b
  | .int n => .int n
  | .str s => .str s
  | .list xs => .list (tagList xs)
  | .dict [(k, v)] =>
      if k ∈ discKeys then
        .dict [(" di", .dict [(k ++ "__", tagv v)])]
      else
        .dict [(k, tagv v)]
  | .dict kvs => .dict (tagPairs kvs)
  | .tuple xs => .dict [(" t", .list (tagList xs))]
  | .bytes bs => .dict [(" b", .str (b64encode bs))]
  | .markup s => .dict [(" m", .str s)]
  | .uuid h => .dict [(" u", .str h)]
  | .datetime d => .dict [(" d", .str (httpDate d))]

/-- Element-wise tagging of a sequence (`PassList.to_json`,
`TagTuple.to_json`). -/
def tagList : List Value → List Value
  | [] => []
  | x :: xs => tagv x :: tagList xs

/-- Value-wise tagging of a mapping (`PassDict.to_json`). -/
def tagPairs : List (String × Value) → List (String × Value)
  | [] => []
  | (k, v) :: kvs => (k, tagv v) :: tagPairs kvs

end

/-! ## The individual built-in tags -/

/-- TagDict.check: a one-item dict whose only key is a registered
discriminator. -/
def tagDictCheck : Value → Bool
  | .dict [(k, _)] => k ∈ discKeys
  | _ => false

/-- TagDict.to_json: suffix the sole key with two underscores and tag the
value through the serializer.  The source reads the first key of the dict
(`next(iter(value))`) and looks its value up. -/
def tagDictToJson : Value → Value
  | .dict ((k, v) :: _) => .dict [(k ++ "__", tagv v)]
  | v => v

/-- TagDict.to_python: strip the last two characters off the first key
unconditionally and keep the value as-is. -/
def tagDictToPython : Value → Value
  | .dict ((k, v) :: _) => .dict [(dropLast2 k, v)]
  | v => v

/-- TagTuple.to_json. -/
def tagTupleToJson : Value → Value
  | .tuple xs => .list (tagList xs)
  | v => v

/-- TagTuple.to_python: rebuild the tuple from the parsed array; the
elements are kept as-is. -/
def tagTupleToPython : Value → Value
  | .list xs => .tuple xs
  | v => v

/-- TagBytes.to_json. -/
def tagBytesToJson : Value → Value
  | .bytes bs => .str (b64encode bs)
  | v => v

/-- TagBytes.to_python.  A base64 failure raises in Python; the error value
chosen here is observed by no claim. -/
def tagBytesToPython : Value → Value
  | .str s =>
      match b64decode s with
      | some bs => .bytes bs
      | none => .null
  | v => v

/-- TagMarkup.to_json: the text of the value's own HTML rendering (Markup
renders to itself). -/
def tagMarkupToJson : Value → Value
  | .markup s => .str s
  | v => v

/-- TagMarkup.to_python. -/
def tagMarkupToPython : Value → Value
  | .str s => .markup s
  | v => v

/-- TagUUID.to_json: the 32-hex-digit form. -/
def tagUUIDToJson : Value → Value
  | .uuid h => .str h
  | v => v

/-- TagUUID.to_python. -/
def tagUUIDToPython : Value → Value
  | .str s => .uuid s
  | v => v

/-- TagDateTime.to_json. -/
def tagDateTimeToJson : Value → Value
  | .datetime d => .str (httpDate d)
  | v => v

/-- TagDateTime.to_python: parse_date returns None for unparseable text,
and that None is returned as the decoded value. -/
def tagDateTimeToPython : Value → Value
  | .str s =>
      match parseDate s with
      | some d => .datetime d
      | none => .null
  | v => v

/-- Dispatch `self.tags[key].to_python` by discriminator, for the six
default discriminated tags. -/
def toPythonOf (k : String) (body : Value) : Value :=
  if k = " di" then tagDictToPython body
  else if k = " t" then tagTupleToPython body
  else if k = " b" then tagBytesToPython body
  else if k = " m" then tagMarkupToPython body
  else if k = " u" then tagUUIDToPython body
  else if k = " d" then tagDateTimeToPython body
  else body

/-! ## Decoding -/

/-- TaggedJSONSerializer.untag applied to one parsed JSON object node (the
object hook): a single-entry mapping whose sole key is a registered
discriminator is replaced by that tag's to_python of the sole value. -/
def untagNode (kvs : List (String × Value)) : Value :=
  match kvs with
  | [(k, body)] => if k ∈ discKeys then toPythonOf k body else .dict kvs
  | _ => .dict kvs

mutual

/-- Bottom-up application of the object hook over a parsed JSON tree: the
standard parser calls the hook once per object, innermost-first, which is
exactly this recursion. -/
def untagAll : Value → Value
  | .dict kvs => untagNode (untagAllPairs kvs)
  | .list xs => .list (untagAllList xs)
  | v => v

/-- untagAll over the elements of an array. -/
def untagAllList : List Value → List Value
  | [] => []
  | x :: xs => untagAll x :: untagAllList xs

/-- untagAll over the values of an object. -/
def untagAllPairs : List (String × Value) → List (String × Value)
  | [] => []
  | (k, v) :: kvs => (k, untagAll v) :: untagAllPairs kvs

end

/-- Recursive hashability of a Python value (containers hash only when all
their members do; lists, dicts and their contents never do). -/
def hashable : Value → Bool
  | .list _ => false
  | .dict _ => false
  | .tuple [] => true
  | .tuple (x :: xs) => hashable x && hashable (.tuple xs)
  | _ => true

/-- TaggedJSONSerializer.untag on an arbitrary input, with the dynamic
failures of the Python body made explicit: `len(value)` raises TypeError
on unsized values, `key in self.tags` raises on an unhashable first
element, and `value[key]` raises when a sequence is indexed by the string
key that a discriminator-valued first element produces. -/
def untagE (v : Value) : Except String Value :=
  match v with
  | .dict kvs =>
      match kvs with
      | [(k, body)] => if k ∈ discKeys then .ok (toPythonOf k body) else .ok v
      | _ => .ok v
  | .list xs =>
      match xs with
      | [x] =>
          if hashable x then
            match x with
            | .str s =>
                if s ∈ discKeys then
                  .error "TypeError: list indices must be integers or slices, not str"
                else .ok v
            | .markup s =>
                if s ∈ discKeys then
                  .error "TypeError: list indices must be integers or slices, not str"
                else .ok v
            | _ => .ok v
          else .error "TypeError: unhashable type"
      | _ => .ok v
  | .tuple xs =>
      match xs with
      | [x] =>
          if hashable x then
            match x with
            | .str s =>
                if s ∈ discKeys then
                  .error "TypeError: tuple indices must be integers or slices, not str"
                else .ok v
            | .markup s =>
                if s ∈ discKeys then
                  .error "TypeError: tuple indices must be integers or slices, not str"
                else .ok v
            | _ => .ok v
          else .error "TypeError: unhashable type"
      | _ => .ok v
  | .str s =>
      match s.data with
      | [c] =>
          if String.mk [c] ∈ discKeys then
            .error "TypeError: string indices must be integers"
          else .ok v
      | _ => .ok v
  | .markup s =>
      match s.data with
      | [c] =>
          if String.mk [c] ∈ discKeys then
            .error "TypeError: string indices must be integers"
          else .ok v
      | _ => .ok v
  | .bytes _ => .ok v
  | .null => .error "TypeError: object of type NoneType has no len()"
  | .bool _ => .error "TypeError: object of type bool has no len()"
  | .int _ => .error "TypeError: object of type int has no len()"
  | .uuid _ => .error "TypeError: object of type UUID has no len()"
  | .datetime _ => .error "TypeError: object of type datetime has no len()"

/-! ## Well-formed values

Invariants the Python runtime enforces on the embedded value domain: dict
keys are unique, byte values fit in an octet, a UUID carries its canonical
32-lowercase-hex-digit form, and datetime fields are in range. -/

/-- Pairwise distinctness of dict keys. -/
def keysNodup : List String → Bool
  | [] => true
  | k :: ks => !(ks.contains k) && keysNodup ks

/-- Lowercase hexadecimal digit. -/
def isHexLower (c : Char) : Bool :=
  c.isDigit || ('a' ≤ c && c ≤ 'f')

mutual

/-- Well-formed embedded Python value. -/
def wfV : Value → Bool
  | .null => true
  | .bool _ => true
  | .int _ => true
  | .str _ => true
  | .list xs => wfList xs
  | .dict kvs => keysNodup (kvs.map Prod.fst) && wfPairs kvs
  | .tuple xs => wfList xs
  | .bytes bs => bs.all (fun b => b < 256)
  | .markup _ => true
  | .uuid h => h.data.length == 32 && h.data.all isHexLower
  | .datetime d => d.valid

/-- Well-formedness of every element of a sequence. -/
def wfList : List Value → Bool
  | [] => true
  | x :: xs => wfV x && wfList xs

/-- Well-formedness of every value of a mapping. -/
def wfPairs : List (String × Value) → Bool
  | [] => true
  | (_, v) :: kvs => wfV v && wfPairs kvs

end

/-! ## The JSON text layer

`TaggedJSONSerializer.dumps` and `loads` delegate to `flask.json`, which in
turn wraps the standard JSON codec (neither module is part of the sources;
both are modelled from the spec: compact separators on output, standard
JSON grammar on input, object hook applied once per parsed object,
innermost-first). -/

/-- Opening brace character of JSON objects. -/
def obr : Char := Char.ofNat 123

/-- Closing brace character of JSON objects. -/
def cbr : Char := Char.ofNat 125

/-- Decimal digits of a natural number (fuel-structured so that concrete
evaluation reduces). -/
def natChars : Nat → Nat → List Char
  | 0, _ => []
  | fuel + 1, n =>
      if n < 10 then [digitChar n]
      else natChars fuel (n / 10) ++ [digitChar (n % 10)]

/-- Decimal rendering of an integer. -/
def intChars (i : Int) : List Char :=
  if i < 0 then '-' :: natChars i.natAbs.succ i.natAbs
  else natChars i.natAbs.succ i.natAbs

/-- Hexadecimal digit character (lowercase, as the JSON writer emits). -/
def hexDigitChar (n : Nat) : Char :=
  if n < 10 then digitChar n else Char.ofNat (87 + n)

/-- Six-character escape for a single UTF-16 code unit. -/
def uEscape (n : Nat) : List Char :=
  ['\\', 'u', hexDigitChar (n / 4096 % 16), hexDigitChar (n / 256 % 16),
   hexDigitChar (n / 16 % 16), hexDigitChar (n % 16)]

/-- Escape one character as the ensure-ascii JSON writer does: two-character
escapes for the JSON specials, the character itself for printable ASCII,
and unicode escapes (surrogate pairs beyond the BMP) otherwise. -/
def escapeChar (c : Char) : List Char :=
  if c = '"' then ['\\', '"']
  else if c = '\\' then ['\\', '\\']
  else if c = Char.ofNat 8 then ['\\', 'b']
  else if c = Char.ofNat 12 then ['\\', 'f']
  else if c = '\n' then ['\\', 'n']
  else if c = Char.ofNat 13 then ['\\', 'r']
  else if c = '\t' then ['\\', 't']
  else if 32 ≤ c.toNat && c.toNat < 127 then [c]
  else if c.toNat < 65536 then uEscape c.toNat
  else
    uEscape (55296 + (c.toNat - 65536) / 1024) ++
    uEscape (56320 + (c.toNat - 65536) % 1024)

/-- Escaped body of a JSON string literal. -/
def escapeString (s : String) : List Char :=
  s.data.foldr (fun c acc => escapeChar c ++ acc) []

mutual

/-- Compact JSON rendering of a JSON-safe value.  Python serializes tuples
as arrays and Markup (a str subclass) as a string; bytes, UUID and
datetime values make `json.dumps` raise TypeError, rendered here as
`none`. -/
def jsonDumpsV : Value → Option (List Char)
  | .null => some ['n', 'u', 'l', 'l']
  | .bool true => some ['t', 'r', 'u', 'e']
  | .bool false => some ['f', 'a', 'l', 's', 'e']
  | .int n => some (intChars n)
  | .str s => some ('"' :: (escapeString s ++ ['"']))
  | .markup s => some ('"' :: (escapeString s ++ ['"']))
  | .list xs =>
      match jsonDumpsItems xs with
      | some body => some ('[' :: (body ++ [']']))
      | none => none
  | .tuple xs =>
      match jsonDumpsItems xs with
      | some body => some ('[' :: (body ++ [']']))
      | none => none
  | .dict kvs =>
      match jsonDumpsMembers kvs with
      | some body => some (obr :: (body ++ [cbr]))
      | none => none
  | .bytes _ => none
  | .uuid _ => none
  | .datetime _ => none

/-- Comma-separated renderings of array elements. -/
def jsonDumpsItems : List Value → Option (List Char)
  | [] => some []
  | [x] => jsonDumpsV x
  | x :: xs =>
      match jsonDumpsV x, jsonDumpsItems xs with
      | some a, some b => some (a ++ (',' :: b))
      | _, _ => none

/-- Comma-separated renderings of object members with the compact colon
separator. -/
def jsonDumpsMembers : List (String × Value) → Option (List Char)
  | [] => some []
  | [(k, v)] =>
      match jsonDumpsV v with
      | some b => some ('"' :: (escapeString k ++ ('"' :: ':' :: b)))
      | none => none
  | (k, v) :: kvs =>
      match jsonDumpsV v, jsonDumpsMembers kvs with
      | some b, some rest =>
          some ('"' :: (escapeString k ++ ('"' :: ':' :: (b ++ (',' :: rest)))))
      | _, _ => none

end

/-- TaggedJSONSerializer.dumps: tag the value, then dump it compactly. -/
def dumps (v : Value) : Option String :=
  (jsonDumpsV (tagv v)).map String.mk

/-- Skip JSON insignificant whitespace. -/
def skipWs : List Char → List Char
  | c :: cs =>
      if c = ' ' || c = '\n' || c = '\t' || c = Char.ofNat 13 then skipWs cs
      else c :: cs
  | [] => []

/-- Value of a hexadecimal digit in either case. -/
def hexVal (c : Char) : Option Nat :=
  if c.isDigit then some (c.toNat - 48)
  else if 'a' ≤ c && c ≤ 'f' then some (c.toNat - 87)
  else if 'A' ≤ c && c ≤ 'F' then some (c.toNat - 55)
  else none

/-- Parse the remainder of a JSON string literal after the opening quote,
accumulating decoded characters in reverse.  Handles the two-character
escapes and unicode escapes with surrogate-pair combination; rejects
unescaped control characters, lone surrogates and unterminated input. -/
def parseStrAux : List Char → List Char → Option (String × List Char)
  | acc, '"' :: rest => some (String.mk acc.reverse, rest)
  | acc, '\\' :: rest =>
      match rest with
      | '"' :: r => parseStrAux ('"' :: acc) r
      | '\\' :: r => parseStrAux ('\\' :: acc) r
      | '/' :: r => parseStrAux ('/' :: acc) r
      | 'b' :: r => parseStrAux (Char.ofNat 8 :: acc) r
      | 'f' :: r => parseStrAux (Char.ofNat 12 :: acc) r
      | 'n' :: r => parseStrAux ('\n' :: acc) r
      | 'r' :: r => parseStrAux (Char.ofNat 13 :: acc) r
      | 't' :: r => parseStrAux ('\t' :: acc) r
      | 'u' :: h1 :: h2 :: h3 :: h4 :: r =>
          (match hexVal h1, hexVal h2, hexVal h3, hexVal h4 with
           | some a, some b, some c, some d =>
              let n := a * 4096 + b * 256 + c * 16 + d
              if n < 55296 || 57344 ≤ n then
                parseStrAux (Char.ofNat n :: acc) r
              else if n < 56320 then
                match r with
                | '\\' :: 'u' :: g1 :: g2 :: g3 :: g4 :: r2 =>
                    (match hexVal g1, hexVal g2, hexVal g3, hexVal g4 with
                     | some a2, some b2, some c2, some d2 =>
                        let m := a2 * 4096 + b2 * 256 + c2 * 16 + d2
                        if 56320 ≤ m && m < 57344 then
                          parseStrAux
                            (Char.ofNat
                              (65536 + (n - 55296) * 1024 + (m - 56320)) :: acc)
                            r2
                        else none
                     | _, _, _, _ => none)
                | _ => none
              else none
           | _, _, _, _ => none)
      | _ => none
  | acc, c :: rest =>
      if c.toNat < 32 then none else parseStrAux (c :: acc) rest
  | _, [] => none

/-- Parse a JSON integer (the claims exercise no fractional numbers; a
fraction or exponent is rejected rather than parsed as a float). -/
def parseIntChars (cs : List Char) : Option (Value × List Char) :=
  let neg := cs.head? = some '-'
  let cs2 := if neg then cs.tail else cs
  let ds := cs2.takeWhile Char.isDigit
  let rest := cs2.dropWhile Char.isDigit
  if ds.isEmpty then none
  else if rest.head? = some '.' || rest.head? = some 'e' || rest.head? = some 'E'
  then none
  else
    let n : Nat := ds.foldl (fun a c => a * 10 + (c.toNat - 48)) 0
    some (.int (if neg then -(n : Int) else (n : Int)), rest)

mutual

/-- Recursive-descent JSON value parser, returning the raw parse tree (the
object hook is applied separately, bottom-up). -/
def parseVal : Nat → List Char → Option (Value × List Char)
  | 0, _ => none
  | fuel + 1, cs =>
      match skipWs cs with
      | 'n' :: 'u' :: 'l' :: 'l' :: rest => some (.null, rest)
      | 't' :: 'r' :: 'u' :: 'e' :: rest => some (.bool true, rest)
      | 'f' :: 'a' :: 'l' :: 's' :: 'e' :: rest => some (.bool false, rest)
      | '"' :: rest =>
          (match parseStrAux [] rest with
           | some (s, r) => some (.str s, r)
           | none => none)
      | '[' :: rest =>
          (match parseArrayItems fuel rest with
           | some (xs, r) => some (.list xs, r)
           | none => none)
      | c :: rest =>
          if c = obr then
            match parseObjMembers fuel rest with
            | some (kvs, r) => some (.dict kvs, r)
            | none => none
          else if c = '-' || c.isDigit then parseIntChars (c :: rest)
          else none
      | [] => none

/-- Elements of an array after the opening bracket. -/
def parseArrayItems : Nat → List Char → Option (List Value × List Char)
  | 0, _ => none
  | fuel + 1, cs =>
      match skipWs cs with
      | ']' :: rest => some ([], rest)
      | cs2 =>
          match parseVal fuel cs2 with
          | some (x, r) =>
              (match parseArrayRest fuel r with
               | some (xs, r2) => some (x :: xs, r2)
               | none => none)
          | none => none

/-- Continuation of an array after one parsed element. -/
def parseArrayRest : Nat → List Char → Option (List Value × List Char)
  | 0, _ => none
  | fuel + 1, cs =>
      match skipWs cs with
      | ']' :: rest => some ([], rest)
      | ',' :: rest =>
          (match parseVal fuel rest with
           | some (x, r) =>
              (match parseArrayRest fuel r with
               | some (xs, r2) => some (x :: xs, r2)
               | none => none)
           | none => none)
      | _ => none

/-- Members of an object after the opening brace. -/
def parseObjMembers : Nat → List Char → Option (List (String × Value) × List Char)
  | 0, _ => none
  | fuel + 1, cs =>
      match skipWs cs with
      | c :: rest =>
          if c = cbr then some ([], rest)
          else
            match parseMember fuel (c :: rest) with
            | some (kv, r) =>
                (match parseObjRest fuel r with
                 | some (kvs, r2) => some (kv :: kvs, r2)
                 | none => none)
            | none => none
      | [] => none

/-- Continuation of an object after one parsed member. -/
def parseObjRest : Nat → List Char → Option (List (String × Value) × List Char)
  | 0, _ => none
  | fuel + 1, cs =>
      match skipWs cs with
      | ',' :: rest =>
          (match parseMember fuel rest with
           | some (kv, r) =>
              (match parseObjRest fuel r with
               | some (kvs, r2) => some (kv :: kvs, r2)
               | none => none)
           | none => none)
      | c :: rest =>
          if c = cbr then some ([], rest) else none
      | [] => none

/-- One key-value member of an object. -/
def parseMember : Nat → List Char → Option ((String × Value) × List Char)
  | 0, _ => none
  | fuel + 1, cs =>
      match skipWs cs with
      | '"' :: rest =>
          (match parseStrAux [] rest with
           | some (k, r) =>
              (match skipWs r with
               | ':' :: r2 =>
                  (match parseVal fuel r2 with
                   | some (v, r3) => some ((k, v), r3)
                   | none => none)
               | _ => none)
           | none => none)
      | _ => none

end

/-- Parse a complete JSON document into its raw tree. -/
def jsonParse (s : String) : Option Value :=
  match parseVal (s.data.length + 1) s.data with
  | some (v, rest) => if (skipWs rest).isEmpty then some v else none
  | none => none

/-- TaggedJSONSerializer.loads: standard JSON parse with untag installed as
the per-object hook — the hook runs once per parsed object, innermost
first, which is the bottom-up pass `untagAll` over the raw tree. -/
def loads (s : String) : Option Value :=
  (jsonParse s).map untagAll

/-- Composite `loads` of `dumps`.  Modelled from the spec: the standard
JSON codec (outside the sources) parses its own compact rendering of every
JSON tree back to that tree, so the composite is the object hook applied
bottom-up to the tagged value. -/
def loadsDumps (v : Value) : Value := untagAll (tagv v)

/-! ## The registry itself

`TaggedJSONSerializer` holds a dict `tags` from discriminator to tag
instance and a list `order` of tag instances.  `register` instantiates the
given tag class and mutates both.  Tag instances are compared by object
identity in Python; each instantiation is a fresh object, embedded here as
a fresh serial number `uid` drawn from a counter threaded through the
serializer. -/

/-- Behaviour of a tag class: discriminator, predicate, the `tag` method
(wrapping; transparent tags override it to skip the wrapper), and
`to_python`. -/
structure TagClass where
  key : Option String
  check : Value → Bool
  tag : Value → Value
  toPython : Value → Value

/-- One registered tag instance. -/
structure JTag where
  uid : Nat
  cls : TagClass

/-- Registry state: the key-indexed dict, the ordered list, and the
instance counter. -/
structure Serializer where
  tags : List (String × JTag)
  order : List JTag
  nextUid : Nat

/-- Python dict membership test on the embedded insertion-ordered dict. -/
def dictContains (d : List (String × JTag)) (k : String) : Bool :=
  d.any (fun p => p.1 == k)

/-- Python dict assignment: replace in place when the key exists, append
otherwise. -/
def dictSet (d : List (String × JTag)) (k : String) (t : JTag) :
    List (String × JTag) :=
  if dictContains d k then d.map (fun p => if p.1 == k then (k, t) else p)
  else d ++ [(k, t)]

/-- Python dict lookup. -/
def dictGet (d : List (String × JTag)) (k : String) : Option JTag :=
  (d.find? (fun p => p.1 == k)).map Prod.snd

/-- Python list.insert: positions past the end append (negative positions
are not exercised by the spec). -/
def listInsertAt (xs : List JTag) (i : Nat) (x : JTag) : List JTag :=
  xs.take i ++ x :: xs.drop i

/-- Order update of `register`: append when no index is given, else insert
at the index. -/
def orderInsert (o : List JTag) (index : Option Nat) (t : JTag) : List JTag :=
  match index with
  | none => o ++ [t]
  | some i => listInsertAt o i t

/-- TaggedJSONSerializer.register: instantiate the class; for a
discriminated tag fail on a duplicate key unless `force`, else store it in
the dict; in every non-failing case insert the instance into the order at
`index` (append when absent). -/
def register (s : Serializer) (cls : TagClass) (force : Bool)
    (index : Option Nat) : Except String Serializer :=
  let t : JTag := ⟨s.nextUid, cls⟩
  match cls.key with
  | some key =>
      if !force && dictContains s.tags key then
        .error ("Tag " ++ key ++ " is already registered.")
      else
        .ok { tags := dictSet s.tags key t
              order := orderInsert s.order index t
              nextUid := s.nextUid + 1 }
  | none =>
      .ok { tags := s.tags
            order := orderInsert s.order index t
            nextUid := s.nextUid + 1 }

/-- Front-to-back scan of the order: the first tag whose check accepts the
value is applied; values no tag matches are returned unchanged. -/
def firstTag : List JTag → Value → Value
  | [], v => v
  | t :: ts, v => if t.cls.check v then t.cls.tag v else firstTag ts v

/-- TaggedJSONSerializer.tag on an arbitrary registry state. -/
def serializerTag (s : Serializer) (v : Value) : Value :=
  firstTag s.order v

/-! ### The default registry -/

/-- PassDict.check. -/
def passDictCheck : Value → Bool
  | .dict _ => true
  | _ => false

/-- PassDict.to_json, which is also its `tag` method (transparent: no
wrapper). -/
def passDictToJson : Value → Value
  | .dict kvs => .dict (tagPairs kvs)
  | v => v

/-- TagTuple.check. -/
def tagTupleCheck : Value → Bool
  | .tuple _ => true
  | _ => false

/-- PassList.check. -/
def passListCheck : Value → Bool
  | .list _ => true
  | _ => false

/-- PassList.to_json, which is also its `tag` method. -/
def passListToJson : Value → Value
  | .list xs => .list (tagList xs)
  | v => v

/-- TagBytes.check. -/
def tagBytesCheck : Value → Bool
  | .bytes _ => true
  | _ => false

/-- TagMarkup.check: the value exposes a callable HTML rendering; in the
embedded domain only Markup does. -/
def tagMarkupCheck : Value → Bool
  | .markup _ => true
  | _ => false

/-- TagUUID.check. -/
def tagUUIDCheck : Value → Bool
  | .uuid _ => true
  | _ => false

/-- TagDateTime.check. -/
def tagDateTimeCheck : Value → Bool
  | .datetime _ => true
  | _ => false

/-- The TagDict class. -/
def tagDictClass : TagClass :=
  { key := some " di", check := tagDictCheck,
    tag := fun v => .dict [(" di", tagDictToJson v)],
    toPython := tagDictToPython }

/-- The PassDict class (transparent). -/
def passDictClass : TagClass :=
  { key := none, check := passDictCheck, tag := passDictToJson,
    toPython := fun v => v }

/-- The TagTuple class. -/
def tagTupleClass : TagClass :=
  { key := some " t", check := tagTupleCheck,
    tag := fun v => .dict [(" t", tagTupleToJson v)],
    toPython := tagTupleToPython }

/-- The PassList class (transparent). -/
def passListClass : TagClass :=
  { key := none, check := passListCheck, tag := passListToJson,
    toPython := fun v => v }

/-- The TagBytes class. -/
def tagBytesClass : TagClass :=
  { key := some " b", check := tagBytesCheck,
    tag := fun v => .dict [(" b", tagBytesToJson v)],
    toPython := tagBytesToPython }

/-- The TagMarkup class. -/
def tagMarkupClass : TagClass :=
  { key := some " m", check := tagMarkupCheck,
    tag := fun v => .dict [(" m", tagMarkupToJson v)],
    toPython := tagMarkupToPython }

/-- The TagUUID class. -/
def tagUUIDClass : TagClass :=
  { key := some " u", check := tagUUIDCheck,
    tag := fun v => .dict [(" u", tagUUIDToJson v)],
    toPython := tagUUIDToPython }

/-- The TagDateTime class. -/
def tagDateTimeClass : TagClass :=
  { key := some " d", check := tagDateTimeCheck,
    tag := fun v => .dict [(" d", tagDateTimeToJson v)],
    toPython := tagDateTimeToPython }

/-- default_tags, in declaration order. -/
def defaultTagClasses : List TagClass :=
  [tagDictClass, passDictClass, tagTupleClass, passListClass, tagBytesClass,
   tagMarkupClass, tagUUIDClass, tagDateTimeClass]

/-- Registry state before `__init__` registers anything. -/
def emptySerializer : Serializer := ⟨[], [], 0⟩

/-- Sequential registration, as the `__init__` loop performs. -/
def regAll : Serializer → List TagClass → Except String Serializer
  | s, [] => .ok s
  | s, c :: cs =>
      match register s c false none with
      | .ok s2 => regAll s2 cs
      | .error e => .error e

/-- TaggedJSONSerializer.__init__: register every default tag class in
order. -/
def defaultSerializer : Serializer :=
  match regAll emptySerializer defaultTagClasses with
  | .ok s => s
  | .error _ => emptySerializer

/-- Registry invariant: every dict entry stores a tag under that tag's own
discriminator (so transparent tags never appear in the dict), every tag in
the dict occurs exactly once in the order (instances compared by
identity), and every instance in the order predates the counter. -/
def SerInv (s : Serializer) : Prop :=
  (∀ p ∈ s.tags, s.order.countP (fun t => t.uid == p.2.uid) = 1) ∧
  (∀ p ∈ s.tags, p.2.cls.key = some p.1) ∧
  (∀ t ∈ s.order, t.uid < s.nextUid)

/-! ## Probe definitions used by concrete instantiations -/

/-- First key of an object value, the observation the decoder dispatches
on. -/
def firstKey : Value → Option String
  | .dict ((k, _) :: _) => some k
  | _ => none

/-- Predicate of a probe tag class matching exactly the null value. -/
def probeNullCheck : Value → Bool
  | .null => true
  | _ => false

/-- Transparent probe tag class whose narrow predicate matches only null
and whose conversion is a constant. -/
def probeNullClass : TagClass :=
  { key := none, check := probeNullCheck, tag := fun _ => .int 7,
    toPython := fun v => v }

/-- Registry with only the probe class, registered at position 0. -/
def probeNullSerializer : Serializer :=
  match register emptySerializer probeNullClass false (some 0) with
  | .ok s => s
  | .error _ => emptySerializer

/-- Probe tag class reusing the tuple discriminator. -/
def dupTagClass : TagClass :=
  { key := some " t", check := fun _ => false, tag := fun v => v,
    toPython := fun v => v }

/-- Default registry after force-registering the duplicate probe class. -/
def dupRegistered : Serializer :=
  match register defaultSerializer dupTagClass true none with
  | .ok s => s
  | .error _ => emptySerializer

/-- Probe tag class under a fresh discriminator. -/
def freshTagClass : TagClass :=
  { key := some " x", check := fun _ => false, tag := fun v => v,
    toPython := fun v => v }

/-- Default registry after registering the fresh probe class. -/
def freshRegistered : Serializer :=
  match register defaultSerializer freshTagClass false none with
  | .ok s => s
  | .error _ => emptySerializer

/-! ## Supporting lemmas -/

/-- Structural induction over values with membership-indexed hypotheses
for the two list-shaped constructors. -/
theorem valueInduct {P : Value → Prop}
    (hnull : P .null) (hbool : ∀ b, P (.bool b)) (hint : ∀ n, P (.int n))
    (hstr : ∀ s, P (.str s))
    (hlist : ∀ xs, (∀ x ∈ xs, P x) → P (.list xs))
    (hdict : ∀ kvs, (∀ p ∈ kvs, P p.2) → P (.dict kvs))
    (htuple : ∀ xs, (∀ x ∈ xs, P x) → P (.tuple xs))
    (hbytes : ∀ bs, P (.bytes bs)) (hmarkup : ∀ s, P (.markup s))
    (huuid : ∀ u, P (.uuid u)) (hdt : ∀ d, P (.datetime d)) :
    ∀ v, P v
  | .null => hnull
  | .bool b => hbool b
  | .int n => hint n
  | .str s => hstr s
  | .list xs => hlist xs (fun x hx =>
      valueInduct hnull hbool hint hstr hlist hdict htuple hbytes hmarkup
        huuid hdt x)
  | .dict kvs => hdict kvs (fun p hp =>
      valueInduct hnull hbool hint hstr hlist hdict htuple hbytes hmarkup
        huuid hdt p.2)
  | .tuple xs => htuple xs (fun x hx =>
      valueInduct hnull hbool hint hstr hlist hdict htuple hbytes hmarkup
        huuid hdt x)
  | .bytes bs => hbytes bs
  | .markup s => hmarkup s
  | .uuid u => huuid u
  | .datetime d => hdt d
termination_by v => sizeOf v
decreasing_by
  · have := List.sizeOf_lt_of_mem hx
    simp only [Value.list.sizeOf_spec]
    omega
  · have h1 := List.sizeOf_lt_of_mem hp
    obtain ⟨a, b⟩ := p
    simp only [Value.dict.sizeOf_spec, Prod.mk.sizeOf_spec] at *
    omega
  · have := List.sizeOf_lt_of_mem hx
    simp only [Value.tuple.sizeOf_spec]
    omega

/-- untagAll is the inverse of element-wise tagging on a list, given the
inverse property for each element. -/
theorem untagAllList_tagList (xs : List Value)
    (ih : ∀ x ∈ xs, untagAll (tagv x) = x) :
    untagAllList (tagList xs) = xs := by
  induction xs with
  | nil => rfl
  | cons x xs ih2 =>
      simp only [tagList, untagAllList, List.cons.injEq]
      exact ⟨ih x (by simp), ih2 (fun y hy => ih y (by simp [hy]))⟩

/-- untagAll is the inverse of value-wise tagging on a mapping, given the
inverse property for each value. -/
theorem untagAllPairs_tagPairs (kvs : List (String × Value))
    (ih : ∀ p ∈ kvs, untagAll (tagv p.2) = p.2) :
    untagAllPairs (tagPairs kvs) = kvs := by
  induction kvs with
  | nil => rfl
  | cons p kvs ih2 =>
      obtain ⟨k, v⟩ := p
      simp only [tagPairs, untagAllPairs, List.cons.injEq, Prod.mk.injEq,
        true_and]
      exact ⟨ih (k, v) (by simp),
        ih2 (fun q hq => ih q (by simp [hq]))⟩

/-- Decoding inverts the character of every six-bit value. -/
theorem sextetVal_sextetChar : ∀ n < 64, sextetVal (sextetChar n) = some n := by
  decide

/-- No six-bit value encodes to the padding character. -/
theorem sextetChar_ne_pad : ∀ n < 64, sextetChar n ≠ '=' := by
  decide

/-- Round trip of the chunked base64 coder on octet lists. -/
theorem b64decodeChunks_encodeChunks :
    ∀ bs : List Nat, (∀ b ∈ bs, b < 256) →
      b64decodeChunks (b64encodeChunks bs) = some bs
  | [], _ => rfl
  | [b1], h => by
      have hb1 : b1 < 256 := h b1 (by simp)
      simp only [b64encodeChunks, b64decodeChunks]
      rw [sextetVal_sextetChar (b1 / 4) (by omega),
        sextetVal_sextetChar (b1 % 4 * 16) (by omega)]
      simp only [List.isEmpty_nil, decide_True, Bool.and_self, if_true,
        Option.some.injEq, List.cons.injEq, and_true]
      omega
  | [b1, b2], h => by
      have hb1 : b1 < 256 := h b1 (by simp)
      have hb2 : b2 < 256 := h b2 (by simp)
      have hne : sextetChar (b2 % 16 * 4) ≠ '=' :=
        sextetChar_ne_pad (b2 % 16 * 4) (by omega)
      simp only [b64encodeChunks, b64decodeChunks]
      rw [if_neg (by simp [hne]), if_pos (by simp)]
      rw [sextetVal_sextetChar (b1 / 4) (by omega),
        sextetVal_sextetChar (b1 % 4 * 16 + b2 / 16) (by omega),
        sextetVal_sextetChar (b2 % 16 * 4) (by omega)]
      simp only [Option.some.injEq, List.cons.injEq, and_true]
      constructor <;> omega
  | b1 :: b2 :: b3 :: rest, h => by
      have hb1 : b1 < 256 := h b1 (by simp)
      have hb2 : b2 < 256 := h b2 (by simp)
      have hb3 : b3 < 256 := h b3 (by simp)
      have ih := b64decodeChunks_encodeChunks rest
        (fun b hb => h b (by simp [hb]))
      have hne3 : sextetChar (b2 % 16 * 4 + b3 / 64) ≠ '=' :=
        sextetChar_ne_pad _ (by omega)
      have hne4 : sextetChar (b3 % 64) ≠ '=' :=
        sextetChar_ne_pad _ (by omega)
      simp only [b64encodeChunks, b64decodeChunks]
      rw [if_neg (by simp [hne3]), if_neg (by simp [hne4])]
      rw [sextetVal_sextetChar (b1 / 4) (by omega),
        sextetVal_sextetChar (b1 % 4 * 16 + b2 / 16) (by omega),
        sextetVal_sextetChar (b2 % 16 * 4 + b3 / 64) (by omega),
        sextetVal_sextetChar (b3 % 64) (by omega), ih]
      simp only [Option.some.injEq, List.cons.injEq, and_true]
      refine ⟨by omega, by omega, by omega⟩

/-- Round trip of base64 on well-formed byte strings. -/
theorem b64decode_encode (bs : List Nat) (h : ∀ b ∈ bs, b < 256) :
    b64decode (b64encode bs) = some bs :=
  b64decodeChunks_encodeChunks bs h

/-- Weekday abbreviations always span three characters. -/
theorem weekdayName_chars (y m d : Nat) :
    ∃ a b c, (weekdayName y m d).data = [a, b, c] := by
  unfold weekdayName
  have h7 : weekdayIdx y m d < 7 := by
    unfold weekdayIdx
    dsimp only
    exact Nat.mod_lt _ (by norm_num)
  generalize weekdayIdx y m d = i at h7 ⊢
  interval_cases i <;> exact ⟨_, _, _, rfl⟩

/-- Digit characters satisfy the parser's digit test. -/
theorem digitChar_isDigit : ∀ x < 10, (digitChar x).isDigit = true := by
  decide

/-- Parsing inverts the rendering of a digit. -/
theorem digitVal_digitChar : ∀ x < 10, digitVal (digitChar x) = x := by
  decide

/-- Month parsing inverts month rendering on the twelve months. -/
theorem monthNum_monthName :
    ∀ m < 13, 1 ≤ m → monthNum (monthName m).data = some m := by
  decide

set_option maxHeartbeats 2000000 in
/-- Parsing inverts HTTP-date rendering on every valid timestamp. -/
theorem parseDate_httpDate (d : DateTime) (h : d.valid = true) :
    parseDate (httpDate d) = some d := by
  obtain ⟨y, mo, dy, hh, mm, ss⟩ := d
  simp only [DateTime.valid, Bool.and_eq_true, decide_eq_true_eq] at h
  obtain ⟨⟨⟨⟨⟨⟨⟨⟨h1, h2⟩, h3⟩, h4⟩, h5⟩, h6⟩, h7⟩, h8⟩, h9⟩ := h
  obtain ⟨a, b, c, hw⟩ := weekdayName_chars y mo dy
  have hmon : ∃ m1 m2 m3, (monthName mo).data = [m1, m2, m3] ∧
      monthNum [m1, m2, m3] = some mo := by
    have hmn := monthNum_monthName mo (by omega) h3
    interval_cases mo <;> exact ⟨_, _, _, rfl, hmn⟩
  obtain ⟨m1, m2, m3, hm, hmn⟩ := hmon
  show parseDateChars (httpDateChars ⟨y, mo, dy, hh, mm, ss⟩) =
    some ⟨y, mo, dy, hh, mm, ss⟩
  unfold httpDateChars
  rw [hw]
  simp only [pad2, pad4]
  rw [hm]
  simp only [List.append_assoc, List.cons_append, List.nil_append]
  have hd1 : (digitChar (dy / 10)).isDigit = true := digitChar_isDigit _ (by omega)
  have hd2 : (digitChar (dy % 10)).isDigit = true := digitChar_isDigit _ (by omega)
  have hd3 : (digitChar (y / 1000)).isDigit = true := digitChar_isDigit _ (by omega)
  have hd4 : (digitChar (y / 100 % 10)).isDigit = true := digitChar_isDigit _ (by omega)
  have hd5 : (digitChar (y / 10 % 10)).isDigit = true := digitChar_isDigit _ (by omega)
  have hd6 : (digitChar (y % 10)).isDigit = true := digitChar_isDigit _ (by omega)
  have hd7 : (digitChar (hh / 10)).isDigit = true := digitChar_isDigit _ (by omega)
  have hd8 : (digitChar (hh % 10)).isDigit = true := digitChar_isDigit _ (by omega)
  have hd9 : (digitChar (mm / 10)).isDigit = true := digitChar_isDigit _ (by omega)
  have hd10 : (digitChar (mm % 10)).isDigit = true := digitChar_isDigit _ (by omega)
  have hd11 : (digitChar (ss / 10)).isDigit = true := digitChar_isDigit _ (by omega)
  have hd12 : (digitChar (ss % 10)).isDigit = true := digitChar_isDigit _ (by omega)
  simp only [parseDateChars, hd1, hd2, hd3, hd4, hd5, hd6, hd7, hd8, hd9,
    hd10, hd11, hd12, Bool.and_self, if_true, hmn]
  simp only [digitVal_digitChar (dy / 10) (by omega),
    digitVal_digitChar (dy % 10) (by omega),
    digitVal_digitChar (y / 1000) (by omega),
    digitVal_digitChar (y / 100 % 10) (by omega),
    digitVal_digitChar (y / 10 % 10) (by omega),
    digitVal_digitChar (y % 10) (by omega),
    digitVal_digitChar (hh / 10) (by omega),
    digitVal_digitChar (hh % 10) (by omega),
    digitVal_digitChar (mm / 10) (by omega),
    digitVal_digitChar (mm % 10) (by omega),
    digitVal_digitChar (ss / 10) (by omega),
    digitVal_digitChar (ss % 10) (by omega),
    Option.some.injEq, DateTime.mk.injEq]
  exact ⟨by omega, trivial, by omega, by omega, by omega, by omega⟩

/-- Unfolding of the encoder on a single-entry dict: the guard tag applies
exactly when the sole key is a discriminator. -/
theorem tagv_dict_single (k : String) (v : Value) :
    tagv (.dict [(k, v)]) =
      if k ∈ discKeys then .dict [(" di", .dict [(k ++ "__", tagv v)])]
      else .dict [(k, tagv v)] := rfl

/-- Unfolding of the encoder on a dict of at least two entries. -/
theorem tagv_dict_pair (p q : String × Value) (rest : List (String × Value)) :
    tagv (.dict (p :: q :: rest)) = .dict (tagPairs (p :: q :: rest)) := rfl

/-- Unfolding of the hook on a single-entry object. -/
theorem untagNode_single (k : String) (b : Value) :
    untagNode [(k, b)] =
      if k ∈ discKeys then toPythonOf k b else .dict [(k, b)] := rfl

/-- The hook leaves objects of at least two entries unchanged. -/
theorem untagNode_pair (p q : String × Value) (rest : List (String × Value)) :
    untagNode (p :: q :: rest) = .dict (p :: q :: rest) := rfl

/-- Suffixing two underscores onto a discriminator never lands on a
discriminator. -/
theorem guard_key_not_disc : ∀ k ∈ discKeys, (k ++ "__") ∉ discKeys := by
  decide

/-- Stripping the two-character suffix recovers the original key. -/
theorem dropLast2_guard (s : String) : dropLast2 (s ++ "__") = s := by
  cases s with
  | mk l =>
      show dropLast2 ⟨l ++ ['_', '_']⟩ = ⟨l⟩
      unfold dropLast2
      simp only [List.length_append, List.length_cons, List.length_nil,
        Nat.add_sub_cancel]
      rw [List.take_left]

/-- Elements of a well-formed sequence are well-formed. -/
theorem wfList_mem (xs : List Value) (h : wfList xs = true) :
    ∀ x ∈ xs, wfV x = true := by
  induction xs with
  | nil => intro x hx; cases hx
  | cons y ys ih =>
      simp only [wfList, Bool.and_eq_true] at h
      intro x hx
      rcases List.mem_cons.mp hx with rfl | hx2
      · exact h.1
      · exact ih h.2 x hx2

/-- Values of a well-formed mapping are well-formed. -/
theorem wfPairs_mem (kvs : List (String × Value)) (h : wfPairs kvs = true) :
    ∀ p ∈ kvs, wfV p.2 = true := by
  induction kvs with
  | nil => intro p hp; cases hp
  | cons q qs ih =>
      obtain ⟨k, v⟩ := q
      simp only [wfPairs, Bool.and_eq_true] at h
      intro p hp
      rcases List.mem_cons.mp hp with rfl | hp2
      · exact h.1
      · exact ih h.2 p hp2

/-- Reduction of the to_python dispatch at the guard discriminator. -/
theorem toPythonOf_di (b : Value) : toPythonOf " di" b = tagDictToPython b := rfl

theorem toPythonOf_t (b : Value) : toPythonOf " t" b = tagTupleToPython b := rfl

theorem toPythonOf_b (b : Value) : toPythonOf " b" b = tagBytesToPython b := rfl

theorem toPythonOf_d (b : Value) : toPythonOf " d" b = tagDateTimeToPython b := rfl

theorem untagAll_tagv (v : Value) : wfV v = true → untagAll (tagv v) = v := by
  induction v using valueInduct with
  | hnull => intro _; rfl
  | hbool b => intro _; rfl
  | hint n => intro _; rfl
  | hstr s => intro _; rfl
  | hlist xs ih =>
      intro hwf
      simp only [wfV] at hwf
      show Value.list (untagAllList (tagList xs)) = .list xs
      rw [untagAllList_tagList xs (fun x hx => ih x hx (wfList_mem xs hwf x hx))]
  | hdict kvs ih =>
      intro hwf
      simp only [wfV, Bool.and_eq_true] at hwf
      have hwp := wfPairs_mem kvs hwf.2
      rcases kvs with _ | ⟨⟨k, v⟩, rest⟩
      · rfl
      rcases rest with _ | ⟨q, rest2⟩
      · have hv : untagAll (tagv v) = v :=
          ih (k, v) (by simp) (hwp (k, v) (by simp))
        by_cases hk : k ∈ discKeys
        · rw [tagv_dict_single, if_pos hk]
          show untagNode [(" di", untagNode [(k ++ "__", untagAll (tagv v))])] =
            .dict [(k, v)]
          rw [hv]
          rw [untagNode_single (k ++ "__") v,
            if_neg (guard_key_not_disc k hk)]
          rw [untagNode_single " di" (Value.dict [(k ++ "__", v)]),
            if_pos (show (" di" : String) ∈ discKeys by decide), toPythonOf_di]
          show Value.dict [(dropLast2 (k ++ "__"), v)] = .dict [(k, v)]
          rw [dropLast2_guard]
        · rw [tagv_dict_single, if_neg hk]
          show untagNode [(k, untagAll (tagv v))] = .dict [(k, v)]
          rw [hv, untagNode_single k v, if_neg hk]
      · rw [tagv_dict_pair]
        show untagNode (untagAllPairs (tagPairs ((k, v) :: q :: rest2))) =
          .dict ((k, v) :: q :: rest2)
        rw [untagAllPairs_tagPairs _ (fun p hp => ih p hp (hwp p hp))]
        exact untagNode_pair _ _ _
  | htuple xs ih =>
      intro hwf
      simp only [wfV] at hwf
      show untagNode [(" t", Value.list (untagAllList (tagList xs)))] = .tuple xs
      rw [untagAllList_tagList xs (fun x hx => ih x hx (wfList_mem xs hwf x hx))]
      rw [untagNode_single " t" (Value.list xs),
        if_pos (show (" t" : String) ∈ discKeys by decide), toPythonOf_t]
      rfl
  | hbytes bs =>
      intro hwf
      simp only [wfV] at hwf
      have hlt : ∀ b ∈ bs, b < 256 := by
        intro b hb
        have h2 := List.all_eq_true.mp hwf b hb
        simpa using h2
      show untagNode [(" b", .str (b64encode bs))] = .bytes bs
      rw [untagNode_single " b" (Value.str (b64encode bs)),
        if_pos (show (" b" : String) ∈ discKeys by decide), toPythonOf_b]
      simp only [tagBytesToPython, b64decode_encode bs hlt]
  | hmarkup s => intro _; rfl
  | huuid u => intro _; rfl
  | hdt d =>
      intro hwf
      simp only [wfV] at hwf
      show untagNode [(" d", .str (httpDate d))] = .datetime d
      rw [untagNode_single " d" (Value.str (httpDate d)),
        if_pos (show (" d" : String) ∈ discKeys by decide), toPythonOf_d]
      simp only [tagDateTimeToPython, parseDate_httpDate d hwf]

/-- A scan over tags none of which match returns the value unchanged. -/
theorem firstTag_no_match (ts : List JTag) (v : Value)
    (h : ∀ t ∈ ts, t.cls.check v = false) : firstTag ts v = v := by
  induction ts with
  | nil => rfl
  | cons t ts ih =>
      simp only [firstTag, h t (by simp), Bool.false_eq_true, if_false]
      exact ih (fun u hu => h u (by simp [hu]))

theorem firstTag_first_match (pre : List JTag) (t : JTag) (post : List JTag)
    (v : Value) (hpre : ∀ u ∈ pre, u.cls.check v = false)
    (ht : t.cls.check v = true) :
    firstTag (pre ++ t :: post) v = t.cls.tag v := by
  induction pre with
  | nil => simp [firstTag, ht]
  | cons u pre ih =>
      simp only [List.cons_append, firstTag, hpre u (by simp),
        Bool.false_eq_true, if_false]
      exact ih (fun w hw => hpre w (by simp [hw]))

theorem mem_dictSet (d : List (String × JTag)) (k : String) (t : JTag)
    (p : String × JTag) (hp : p ∈ dictSet d k t) : p = (k, t) ∨ p ∈ d := by
  unfold dictSet at hp
  split at hp
  · obtain ⟨q, hq, hfq⟩ := List.mem_map.mp hp
    by_cases hqk : (q.1 == k) = true
    · rw [if_pos hqk] at hfq
      exact Or.inl hfq.symm
    · rw [if_neg hqk] at hfq
      exact Or.inr (hfq ▸ hq)
  · rcases List.mem_append.mp hp with h | h
    · exact Or.inr h
    · simp only [List.mem_singleton] at h
      exact Or.inl h

theorem find?_map_set (d : List (String × JTag)) (k : String) (t : JTag)
    (hc : dictContains d k = true) :
    (d.map (fun p => if p.1 == k then (k, t) else p)).find?
      (fun p => p.1 == k) = some (k, t) := by
  induction d with
  | nil => simp [dictContains] at hc
  | cons p rest ih =>
      by_cases hpk : (p.1 == k) = true
      · simp only [List.map_cons, if_pos hpk, List.find?_cons, beq_self_eq_true]
      · have hpk2 : (p.1 == k) = false := by simpa using hpk
        simp only [List.map_cons, if_neg hpk, List.find?_cons, hpk2,
          Bool.false_eq_true, if_false]
        apply ih
        simp only [dictContains, List.any_cons, Bool.or_eq_true] at hc
        rcases hc with h | h
        · exact absurd h hpk
        · exact h


theorem dictGet_dictSet (d : List (String × JTag)) (k : String) (t : JTag) :
    dictGet (dictSet d k t) k = some t := by
  unfold dictGet dictSet
  split
  · rename_i hc
    rw [find?_map_set d k t hc]
    rfl
  · rename_i hc
    have hall : ∀ p ∈ d, ¬((fun p => p.1 == k) p = true) := by
      intro p hp hpk
      exact hc (List.any_eq_true.mpr ⟨p, hp, hpk⟩)
    rw [List.find?_append, List.find?_eq_none.mpr hall]
    simp

theorem countP_listInsertAt (xs : List JTag) (i : Nat) (x : JTag)
    (p : JTag → Bool) :
    (listInsertAt xs i x).countP p = xs.countP p + (if p x then 1 else 0) := by
  unfold listInsertAt
  rw [List.countP_append, List.countP_cons]
  conv_rhs => rw [show xs = xs.take i ++ xs.drop i from (List.take_append_drop i xs).symm]
  rw [List.countP_append]
  omega

theorem mem_listInsertAt (xs : List JTag) (i : Nat) (x : JTag) (u : JTag)
    (hu : u ∈ listInsertAt xs i x) : u ∈ xs ∨ u = x := by
  unfold listInsertAt at hu
  rcases List.mem_append.mp hu with h | h
  · exact Or.inl (List.take_subset i xs h)
  · rcases List.mem_cons.mp h with h | h
    · exact Or.inr h
    · exact Or.inl (List.drop_subset i xs h)

theorem exists_of_countP_one (l : List JTag) (p : JTag → Bool)
    (h : l.countP p = 1) : ∃ a ∈ l, p a = true := by
  by_contra hno
  push_neg at hno
  have : l.countP p = 0 := List.countP_eq_zero.mpr (by
    intro a ha
    exact hno a ha)
  omega

/-- Characterization of a successful registration of a discriminated tag
class: the duplicate test must have passed, the instance is stored in the
dict and inserted into the order, and the counter advances. -/
theorem register_ok_some (s : Serializer) (cls : TagClass) (k : String)
    (force : Bool) (index : Option Nat) (s2 : Serializer)
    (hk : cls.key = some k)
    (hok : register s cls force index = .ok s2) :
    (!force && dictContains s.tags k) = false ∧
    s2.tags = dictSet s.tags k ⟨s.nextUid, cls⟩ ∧
    s2.order = orderInsert s.order index ⟨s.nextUid, cls⟩ ∧
    s2.nextUid = s.nextUid + 1 := by
  unfold register at hok
  simp only [hk] at hok
  by_cases hc : (!force && dictContains s.tags k) = true
  · rw [if_pos hc] at hok
    exact absurd hok (by simp)
  · rw [if_neg hc] at hok
    simp only [Except.ok.injEq] at hok
    subst hok
    exact ⟨by simpa using hc, rfl, rfl, rfl⟩

/-- Characterization of registering a transparent tag class: the dict is
untouched, the instance joins the order, and the counter advances. -/
theorem register_ok_none (s : Serializer) (cls : TagClass)
    (force : Bool) (index : Option Nat) (s2 : Serializer)
    (hk : cls.key = none)
    (hok : register s cls force index = .ok s2) :
    s2.tags = s.tags ∧
    s2.order = orderInsert s.order index ⟨s.nextUid, cls⟩ ∧
    s2.nextUid = s.nextUid + 1 := by
  unfold register at hok
  simp only [hk] at hok
  simp only [Except.ok.injEq] at hok
  subst hok
  exact ⟨rfl, rfl, rfl⟩

/-- Registration preserves the registry invariant. -/
theorem register_preserves_SerInv (s : Serializer) (cls : TagClass)
    (force : Bool) (index : Option Nat) (s2 : Serializer)
    (hinv : SerInv s) (hok : register s cls force index = .ok s2) :
    SerInv s2 := by
  obtain ⟨h1, h2, h3⟩ := hinv
  have horder2 : ∀ o : List JTag,
      o = orderInsert s.order index ⟨s.nextUid, cls⟩ →
      (∀ p : JTag → Bool, o.countP p =
        s.order.countP p + (if p ⟨s.nextUid, cls⟩ then 1 else 0)) ∧
      (∀ u ∈ o, u ∈ s.order ∨ u = ⟨s.nextUid, cls⟩) := by
    intro o ho
    unfold orderInsert at ho
    cases index with
    | none =>
        subst ho
        constructor
        · intro p
          simp [List.countP_append, List.countP_cons]
        · intro u hu
          rcases List.mem_append.mp hu with h | h
          · exact Or.inl h
          · simp only [List.mem_singleton] at h
            exact Or.inr h
    | some i =>
        subst ho
        exact ⟨fun p => countP_listInsertAt _ _ _ p,
          fun u hu => mem_listInsertAt _ _ _ _ hu⟩
  have hfresh : ∀ p2 : String × JTag, p2 ∈ s.tags → p2.2.uid < s.nextUid := by
    intro p2 hp2
    obtain ⟨u, hu, hpu⟩ := exists_of_countP_one _ _ (h1 p2 hp2)
    have := h3 u hu
    simp only [beq_iff_eq] at hpu
    omega
  cases hkc : cls.key with
  | some k =>
      obtain ⟨hc, htags, horder, hnext⟩ :=
        register_ok_some s cls k force index s2 hkc hok
      obtain ⟨hcount, hmem⟩ := horder2 s2.order horder
      refine ⟨?_, ?_, ?_⟩
      · intro p hp
        rw [htags] at hp
        rcases mem_dictSet _ _ _ _ hp with rfl | hpold
        · rw [hcount]
          have hzero : s.order.countP (fun t => t.uid == s.nextUid) = 0 :=
            List.countP_eq_zero.mpr (by
              intro u hu
              have := h3 u hu
              simp only [beq_iff_eq]
              omega)
          simp [hzero]
        · rw [hcount]
          have hlt : p.2.uid < s.nextUid := hfresh p hpold
          have hne : ((⟨s.nextUid, cls⟩ : JTag).uid == p.2.uid) = false := by
            simp only [beq_eq_false_iff_ne, ne_eq]
            omega
          simp only [hne, Bool.false_eq_true, if_false, Nat.add_zero]
          exact h1 p hpold
      · intro p hp
        rw [htags] at hp
        rcases mem_dictSet _ _ _ _ hp with rfl | hpold
        · exact hkc
        · exact h2 p hpold
      · intro u hu
        rw [hnext]
        rcases hmem u hu with h | rfl
        · have := h3 u h
          omega
        · dsimp only
          omega
  | none =>
      obtain ⟨htags, horder, hnext⟩ :=
        register_ok_none s cls force index s2 hkc hok
      obtain ⟨hcount, hmem⟩ := horder2 s2.order horder
      refine ⟨?_, ?_, ?_⟩
      · intro p hp
        rw [htags] at hp
        rw [hcount]
        have hlt : p.2.uid < s.nextUid := hfresh p hp
        have hne : ((⟨s.nextUid, cls⟩ : JTag).uid == p.2.uid) = false := by
          simp only [beq_eq_false_iff_ne, ne_eq]
          omega
        simp only [hne, Bool.false_eq_true, if_false, Nat.add_zero]
        exact h1 p hp
      · intro p hp
        rw [htags] at hp
        exact h2 p hp
      · intro u hu
        rw [hnext]
        rcases hmem u hu with h | rfl
        · have := h3 u h
          omega
        · dsimp only
          omega


/-- One-character strings are never discriminators (all discriminators
have at least two characters). -/
theorem singleton_not_disc (c : Char) : String.mk [c] ∉ discKeys := by
  intro h
  simp only [discKeys, List.mem_cons, List.not_mem_nil, or_false] at h
  rcases h with h | h | h | h | h | h <;>
    · have h2 := congrArg (fun s => s.data.length) h
      simp at h2

/-- untag returns every string unchanged: a string of length other than
one short-circuits at the length test, and a one-character string is never
a discriminator. -/
theorem untagE_str (s : String) : untagE (.str s) = .ok (.str s) := by
  rw [show untagE (.str s) = (match s.data with
      | [c] => if String.mk [c] ∈ discKeys then
            .error "TypeError: string indices must be integers"
          else .ok (Value.str s)
      | _ => .ok (Value.str s)) from rfl]
  split
  · rename_i c heq
    rw [if_neg (singleton_not_disc c)]
  · rfl

/-! ## The claims -/

/-- C1: for every value composed of JSON-native scalars and the built-in
tagged types (well-formed: unique dict keys, octet byte values, canonical
UUID hex, valid datetime fields), loads of dumps returns the value,
structurally and by type. -/
theorem loads_dumps_roundtrip (v : Value) (h : wfV v = true) :
    loadsDumps v = v :=
  untagAll_tagv v h

/-- Witness for C1 at a concrete nested value exercising dict, tuple,
bytes and datetime. -/
theorem loads_dumps_roundtrip_witness :
    wfV (.dict [("x", .tuple [.int 1, .bytes [0, 255],
      .datetime ⟨2024, 1, 1, 0, 0, 0⟩])]) = true ∧
    loadsDumps (.dict [("x", .tuple [.int 1, .bytes [0, 255],
      .datetime ⟨2024, 1, 1, 0, 0, 0⟩])]) =
      .dict [("x", .tuple [.int 1, .bytes [0, 255],
        .datetime ⟨2024, 1, 1, 0, 0, 0⟩])] :=
  ⟨rfl, loads_dumps_roundtrip _ rfl⟩

/-- C2 counterexample: encoding the single-entry mapping with the tuple
discriminator as its key does not produce the claimed unwrapped wire form
— neither as wire text through dumps nor as the encoded tree, since the
guard output is itself wrapped under the " di" discriminator — and
decoding the claimed wire form, as text through loads or as a tree,
returns it unchanged rather than reproducing the original mapping. -/
theorem guard_wire_claim_cex :
    dumps (.dict [(" t", .list [.int 1, .int 2, .int 3])]) ≠
      some "\x7b\" t__\":[1,2,3]\x7d" ∧
    loads "\x7b\" t__\":[1,2,3]\x7d" ≠
      some (.dict [(" t", .list [.int 1, .int 2, .int 3])]) ∧
    tagv (.dict [(" t", .list [.int 1, .int 2, .int 3])]) ≠
      .dict [(" t__", .list [.int 1, .int 2, .int 3])] ∧
    untagAll (.dict [(" t__", .list [.int 1, .int 2, .int 3])]) ≠
      .dict [(" t", .list [.int 1, .int 2, .int 3])] := by
  refine ⟨?_, ?_, ?_, ?_⟩
  · intro h
    have h0 : some "\x7b\" di\":\x7b\" t__\":[1,2,3]\x7d\x7d" =
        some "\x7b\" t__\":[1,2,3]\x7d" := h
    exact absurd (Option.some.inj h0) (by decide)
  · intro h
    have h0 : some (Value.dict [(" t__", .list [.int 1, .int 2, .int 3])]) =
        some (Value.dict [(" t", .list [.int 1, .int 2, .int 3])]) := h
    have h2 := congrArg firstKey (Option.some.inj h0)
    simp only [firstKey] at h2
    exact absurd h2 (by decide)
  · intro h
    have h0 : Value.dict
        [(" di", .dict [(" t__", .list [.int 1, .int 2, .int 3])])] =
        .dict [(" t__", .list [.int 1, .int 2, .int 3])] := h
    have h2 := congrArg firstKey h0
    simp only [firstKey] at h2
    exact absurd h2 (by decide)
  · intro h
    have h0 : Value.dict [(" t__", .list [.int 1, .int 2, .int 3])] =
        .dict [(" t", .list [.int 1, .int 2, .int 3])] := h
    have h2 := congrArg firstKey h0
    simp only [firstKey] at h2
    exact absurd h2 (by decide)

/-- C2 amended: encoding the mapping produces the guard form wrapped under
the " di" discriminator — the wire text carries both the " di" key and the
suffixed inner key — and decoding that wire form reproduces exactly the
original mapping, not a tuple. -/
theorem guard_wire_roundtrip :
    tagv (.dict [(" t", .list [.int 1, .int 2, .int 3])]) =
      .dict [(" di", .dict [(" t__", .list [.int 1, .int 2, .int 3])])] ∧
    dumps (.dict [(" t", .list [.int 1, .int 2, .int 3])]) =
      some "\x7b\" di\":\x7b\" t__\":[1,2,3]\x7d\x7d" ∧
    loads "\x7b\" di\":\x7b\" t__\":[1,2,3]\x7d\x7d" =
      some (.dict [(" t", .list [.int 1, .int 2, .int 3])]) :=
  ⟨rfl, rfl, rfl⟩

/-- C3 counterexample: the tuple tag accepts a nested tuple, but to_python
after to_json returns the tuple with its element still in tagged wire
form, not the original value — to_json tags children through the
serializer while to_python does not untag them. -/
theorem builtin_left_inverse_cex :
    tagTupleCheck (.tuple [.tuple [.int 1, .int 2]]) = true ∧
    tagTupleToPython (tagTupleToJson (.tuple [.tuple [.int 1, .int 2]])) ≠
      .tuple [.tuple [.int 1, .int 2]] := by
  refine ⟨rfl, ?_⟩
  intro h
  have h0 : Value.tuple [.dict [(" t", .list [.int 1, .int 2])]] =
      .tuple [.tuple [.int 1, .int 2]] := h
  simp at h0

/-- C3 amended: for the leaf discriminated tags — bytes, markup, UUID,
datetime — to_python inverts to_json on every value the check accepts
(bytes restricted to octet values, datetime to valid field ranges); in
particular the datetime tag round-trips through its HTTP-date encoding.
For the container tags (tuple, dict guard) the left inverse fails because
children are tagged on the way out but not untagged on the way back. -/
theorem builtin_left_inverse_leaf :
    (∀ v, tagBytesCheck v = true → wfV v = true →
      tagBytesToPython (tagBytesToJson v) = v) ∧
    (∀ v, tagMarkupCheck v = true →
      tagMarkupToPython (tagMarkupToJson v) = v) ∧
    (∀ v, tagUUIDCheck v = true →
      tagUUIDToPython (tagUUIDToJson v) = v) ∧
    (∀ v, tagDateTimeCheck v = true → wfV v = true →
      tagDateTimeToPython (tagDateTimeToJson v) = v) := by
  refine ⟨?_, ?_, ?_, ?_⟩
  · intro v hc hw
    rcases v with _ | b | n | s | xs | kvs | xs | bs | s | u | d <;>
      try exact Bool.noConfusion hc
    have hlt : ∀ b2 ∈ bs, b2 < 256 := by
      simp only [wfV] at hw
      intro b2 hb2
      simpa using List.all_eq_true.mp hw b2 hb2
    show tagBytesToPython (.str (b64encode bs)) = .bytes bs
    simp only [tagBytesToPython, b64decode_encode bs hlt]
  · intro v hc
    rcases v with _ | b | n | s | xs | kvs | xs | bs | s | u | d <;>
      try exact Bool.noConfusion hc
    rfl
  · intro v hc
    rcases v with _ | b | n | s | xs | kvs | xs | bs | s | u | d <;>
      try exact Bool.noConfusion hc
    rfl
  · intro v hc hw
    rcases v with _ | b | n | s | xs | kvs | xs | bs | s | u | d <;>
      try exact Bool.noConfusion hc
    simp only [wfV] at hw
    show tagDateTimeToPython (.str (httpDate d)) = .datetime d
    simp only [tagDateTimeToPython, parseDate_httpDate d hw]

/-- Witness for C3 at concrete leaf values of all four kinds. -/
theorem builtin_left_inverse_leaf_witness :
    tagBytesToPython (tagBytesToJson (.bytes [0, 255])) = .bytes [0, 255] ∧
    tagMarkupToPython (tagMarkupToJson (.markup "<b>hi</b>")) =
      .markup "<b>hi</b>" ∧
    tagUUIDToPython (tagUUIDToJson
      (.uuid "12345678123412341234123456789012")) =
      .uuid "12345678123412341234123456789012" ∧
    tagDateTimeToPython (tagDateTimeToJson
      (.datetime ⟨2024, 1, 1, 0, 0, 0⟩)) =
      .datetime ⟨2024, 1, 1, 0, 0, 0⟩ := by
  have h := builtin_left_inverse_leaf
  exact ⟨h.1 (.bytes [0, 255]) rfl rfl, h.2.1 (.markup "<b>hi</b>") rfl,
    h.2.2.1 (.uuid "12345678123412341234123456789012") rfl,
    h.2.2.2 (.datetime ⟨2024, 1, 1, 0, 0, 0⟩) rfl rfl⟩

/-- C4: the registry scan is first-match-wins — when no check accepts the
value it is returned unchanged with no error; when the order splits as
pre, t, post with every check in pre rejecting and the check of t
accepting, t is applied; and a class registered at position 0 wins for
every value its check accepts. -/
theorem tag_first_match_wins :
    (∀ (s : Serializer) (v : Value),
      (∀ t ∈ s.order, t.cls.check v = false) → serializerTag s v = v) ∧
    (∀ (s : Serializer) (v : Value) (pre : List JTag) (t : JTag)
        (post : List JTag), s.order = pre ++ t :: post →
      (∀ u ∈ pre, u.cls.check v = false) → t.cls.check v = true →
      serializerTag s v = t.cls.tag v) ∧
    (∀ (s : Serializer) (cls : TagClass) (v : Value) (s2 : Serializer),
      register s cls false (some 0) = .ok s2 → cls.check v = true →
      serializerTag s2 v = cls.tag v) := by
  refine ⟨?_, ?_, ?_⟩
  · intro s v h
    exact firstTag_no_match s.order v h
  · intro s v pre t post ho hpre ht
    unfold serializerTag
    rw [ho]
    exact firstTag_first_match pre t post v hpre ht
  · intro s cls v s2 hok hcheck
    unfold serializerTag
    cases hkc : cls.key with
    | some k =>
        obtain ⟨_, _, horder, _⟩ :=
          register_ok_some s cls k false (some 0) s2 hkc hok
        rw [horder]
        show firstTag (⟨s.nextUid, cls⟩ :: s.order) v = cls.tag v
        simp [firstTag, hcheck]
    | none =>
        obtain ⟨_, horder, _⟩ :=
          register_ok_none s cls false (some 0) s2 hkc hok
        rw [horder]
        show firstTag (⟨s.nextUid, cls⟩ :: s.order) v = cls.tag v
        simp [firstTag, hcheck]

/-- Witness for C4: no default check accepts an integer, and the probe
class registered at position 0 wins on null. -/
theorem tag_first_match_wins_witness :
    serializerTag defaultSerializer (.int 0) = .int 0 ∧
    serializerTag probeNullSerializer .null = .int 7 ∧
    serializerTag probeNullSerializer .null = probeNullClass.tag .null := by
  refine ⟨?_, ?_, ?_⟩
  · exact tag_first_match_wins.1 defaultSerializer (.int 0) (by decide)
  · exact tag_first_match_wins.2.1 probeNullSerializer .null []
      ⟨0, probeNullClass⟩ [] rfl (by simp) rfl
  · exact tag_first_match_wins.2.2 emptySerializer probeNullClass .null
      probeNullSerializer rfl rfl

/-- C5: registering a class whose discriminator is already present without
the force flag fails with the duplicate KeyError (the embedded register
returns the error and no changed state, mirroring that the exception is
raised before any mutation); with the force flag the dict entry is
replaced by the new instance while the order retains every old instance
and gains the new one. -/
theorem register_duplicate_behaviour :
    (∀ (s : Serializer) (cls : TagClass) (k : String) (index : Option Nat),
      cls.key = some k → dictContains s.tags k = true →
      register s cls false index =
        .error ("Tag " ++ k ++ " is already registered.")) ∧
    (∀ (s : Serializer) (cls : TagClass) (k : String) (s2 : Serializer),
      cls.key = some k → register s cls true none = .ok s2 →
      dictGet s2.tags k = some ⟨s.nextUid, cls⟩ ∧
      s2.order = s.order ++ [⟨s.nextUid, cls⟩] ∧
      (∀ t ∈ s.order, t ∈ s2.order) ∧
      (⟨s.nextUid, cls⟩ : JTag) ∈ s2.order) := by
  constructor
  · intro s cls k index hk hc
    unfold register
    simp only [hk]
    rw [if_pos (by simp [hc])]
  · intro s cls k s2 hk hok
    obtain ⟨_, htags, horder, _⟩ :=
      register_ok_some s cls k true none s2 hk hok
    have horder2 : s2.order = s.order ++ [⟨s.nextUid, cls⟩] := horder
    refine ⟨?_, horder2, ?_, ?_⟩
    · rw [htags]
      exact dictGet_dictSet _ _ _
    · intro t ht
      rw [horder2]
      exact List.mem_append.mpr (Or.inl ht)
    · rw [horder2]
      simp

/-- Witness for C5: re-registering the tuple discriminator on the default
registry fails without force; with force the dict points at the new
instance while the order keeps all eight defaults and appends it. -/
theorem register_duplicate_behaviour_witness :
    register defaultSerializer dupTagClass false none =
      .error ("Tag " ++ " t" ++ " is already registered.") ∧
    dictGet dupRegistered.tags " t" = some ⟨8, dupTagClass⟩ ∧
    dupRegistered.order = defaultSerializer.order ++ [⟨8, dupTagClass⟩] ∧
    (⟨8, dupTagClass⟩ : JTag) ∈ dupRegistered.order := by
  have h := register_duplicate_behaviour
  have hb := h.2 defaultSerializer dupTagClass " t" dupRegistered rfl rfl
  exact ⟨h.1 defaultSerializer dupTagClass " t" none rfl (by decide),
    hb.1, hb.2.1, hb.2.2.2⟩

/-- C6 counterexample: untag on the integer 5 — not a single-entry mapping
— raises TypeError at the len call instead of returning it unchanged. -/
theorem untag_unsized_cex :
    untagE (.int 5) = .error "TypeError: object of type int has no len()" ∧
    untagE (.int 5) ≠ .ok (.int 5) :=
  ⟨rfl, fun h => Except.noConfusion h⟩

/-- C6 amended: on mapping inputs untag behaves as claimed — a mapping
that is not single-entry is returned unchanged, a single-entry mapping
with a registered discriminator as sole key is replaced by that tag's
to_python of the sole value, a single-entry mapping with any other sole
key is returned unchanged, and no error is raised when no to_python is
invoked; but on inputs without a length (null, booleans, numbers) untag
raises TypeError. -/
theorem untag_mapping_behaviour :
    (∀ kvs : List (String × Value), kvs.length ≠ 1 →
      untagE (.dict kvs) = .ok (.dict kvs)) ∧
    (∀ (k : String) (body : Value), k ∈ discKeys →
      untagE (.dict [(k, body)]) = .ok (toPythonOf k body)) ∧
    (∀ (k : String) (body : Value), k ∉ discKeys →
      untagE (.dict [(k, body)]) = .ok (.dict [(k, body)])) ∧
    untagE .null = .error "TypeError: object of type NoneType has no len()" := by
  refine ⟨?_, ?_, ?_, rfl⟩
  · intro kvs hlen
    rcases kvs with _ | ⟨p, rest⟩
    · rfl
    rcases rest with _ | ⟨q, rest2⟩
    · simp at hlen
    · rfl
  · intro k body hk
    show (if k ∈ discKeys then Except.ok (toPythonOf k body)
        else .ok (.dict [(k, body)])) = .ok (toPythonOf k body)
    rw [if_pos hk]
  · intro k body hk
    show (if k ∈ discKeys then Except.ok (toPythonOf k body)
        else .ok (.dict [(k, body)])) = .ok (.dict [(k, body)])
    rw [if_neg hk]

/-- Witness for C6: the empty mapping passes through, a tuple wrapper is
decoded, and an unregistered single key passes through. -/
theorem untag_mapping_behaviour_witness :
    untagE (.dict []) = .ok (.dict []) ∧
    untagE (.dict [(" t", .list [.int 1])]) = .ok (.tuple [.int 1]) ∧
    untagE (.dict [("x", .null)]) = .ok (.dict [("x", .null)]) :=
  ⟨untag_mapping_behaviour.1 [] (by simp),
    untag_mapping_behaviour.2.1 " t" (.list [.int 1]) (by decide),
    untag_mapping_behaviour.2.2.1 "x" .null (by decide)⟩

/-- C7 counterexample: untag on the boolean true raises TypeError at the
len call instead of returning it unchanged. -/
theorem scalar_passthrough_cex :
    untagE (.bool true) =
      .error "TypeError: object of type bool has no len()" ∧
    untagE (.bool true) ≠ .ok (.bool true) :=
  ⟨rfl, fun h => Except.noConfusion h⟩

/-- C7 amended: tag returns every JSON-native scalar unchanged (strings
included, discriminator-valued or not, since no check accepts a string),
and untag returns every string unchanged; but untag on null, booleans and
numbers raises TypeError at the len call rather than returning the value.
-/
theorem scalar_passthrough :
    tagv .null = .null ∧ (∀ b, tagv (.bool b) = .bool b) ∧
    (∀ n : Int, tagv (.int n) = .int n) ∧
    (∀ s : String, tagv (.str s) = .str s) ∧
    (∀ s : String, untagE (.str s) = .ok (.str s)) ∧
    untagE .null = .error "TypeError: object of type NoneType has no len()" ∧
    (∀ b, untagE (.bool b) =
      .error "TypeError: object of type bool has no len()") ∧
    (∀ n : Int, untagE (.int n) =
      .error "TypeError: object of type int has no len()") :=
  ⟨rfl, fun _ => rfl, fun _ => rfl, fun _ => rfl, untagE_str, rfl,
    fun _ => rfl, fun _ => rfl⟩

/-- C8: the registry invariant — every dict entry is stored under its own
discriminator and its instance occurs exactly once in the order, while
transparent instances live in the order only — holds for the freshly
constructed default registry and is preserved by every successful
register call. -/
theorem registry_invariant :
    SerInv defaultSerializer ∧
    (∀ (s : Serializer) (cls : TagClass) (force : Bool)
        (index : Option Nat) (s2 : Serializer),
      SerInv s → register s cls force index = .ok s2 → SerInv s2) :=
  ⟨⟨by decide, by decide, by decide⟩,
    fun s cls f i s2 hinv hok =>
      register_preserves_SerInv s cls f i s2 hinv hok⟩

/-- Witness for C8: the invariant holds for the default registry and is
preserved by registering a fresh probe class. -/
theorem registry_invariant_witness :
    SerInv defaultSerializer ∧ SerInv freshRegistered :=
  ⟨registry_invariant.1,
    registry_invariant.2 defaultSerializer freshTagClass false none
      freshRegistered registry_invariant.1 rfl⟩

/-- C9: on the default registry the tuple example serializes to the exact
compact wire text and loads back to the original tuple, and the two-byte
string serializes to the exact padded base64 wire text and loads back to
the original bytes. -/
theorem concrete_wire_examples :
    dumps (.tuple [.int 1, .str "a", .bool true]) =
      some "\x7b\" t\":[1,\"a\",true]\x7d" ∧
    loads "\x7b\" t\":[1,\"a\",true]\x7d" =
      some (.tuple [.int 1, .str "a", .bool true]) ∧
    dumps (.bytes [0, 1]) = some "\x7b\" b\":\"AAE=\"\x7d" ∧
    loads "\x7b\" b\":\"AAE=\"\x7d" = some (.bytes [0, 1]) :=
  ⟨rfl, rfl, rfl, rfl⟩

/-- C10: the guard decode strips the last two characters of the sole key
unconditionally — dropLast2 is the Python slice key[:-2] — so a
hand-crafted " di" wrapper whose inner key does not end in two
underscores decodes to a mapping whose key has lost its final two
characters. -/
theorem tagdict_to_python_strips_two :
    (∀ (k : String) (v : Value),
      tagDictToPython (.dict [(k, v)]) = .dict [(dropLast2 k, v)]) ∧
    untagAll (.dict [(" di", .dict [("abc", .int 1)])]) =
      .dict [("a", .int 1)] :=
  ⟨fun _ _ => rfl, rfl⟩


end FlaskTag
